import Mathlib

/-!
Shallow embedding of the `electron-reload` module (src: the single TypeScript
file exporting `electronReload`).

The module wires two chokidar file watchers (a broad "soft" watcher over a
glob and a narrow "hard" watcher over the main file) to two reset actions:
a soft reset (reload every tracked BrowserWindow ignoring cache) and a hard
reset (spawn a replacement electron process, then terminate the current one).

External collaborators (electron `app`, chokidar, `fs.existsSync`, `spawn`)
are modelled as parameters or as effect constructors in traces:
  - `existsSync : String → Bool` stands for `fs.existsSync`;
  - `inGlob : String → String → Bool` stands for chokidar's glob matching
    (first argument the glob pattern, second the changed path);
  - window handles are identified by `Nat` ids;
  - the actions performed by handlers are recorded as lists of effects.
-/

namespace ElectronReload

/-- A member of a chokidar `ignored` array, as the source builds them:
either the module-level regex `ignoredPaths = /node_modules|[/\\]\./`
or a literal path string (the main file). -/
inductive IgnorePattern where
  | regexIgnoredPaths
  | exactPath (p : String)
deriving DecidableEq, Repr

/-- Whether `pat` occurs at the start of `s`. -/
def matchHere : List Char → List Char → Bool
  | [], _ => true
  | _ :: _, [] => false
  | a :: pat, b :: s => a == b && matchHere pat s

/-- Whether `pat` occurs contiguously anywhere in `s`. -/
def containsSeq (pat : List Char) : List Char → Bool
  | [] => matchHere pat []
  | b :: s => matchHere pat (b :: s) || containsSeq pat s

/-- Test of the regex `/node_modules|[/\\]\./` on a path: the path contains
the substring "node_modules", or a slash or backslash followed by a dot. -/
def ignoredPathsTest (p : String) : Bool :=
  containsSeq "node_modules".toList p.toList ||
  containsSeq "/.".toList p.toList ||
  containsSeq "\\.".toList p.toList

/-- Whether one `ignored` array entry matches a changed path. -/
def patMatches (pat : IgnorePattern) (p : String) : Bool :=
  match pat with
  | IgnorePattern.regexIgnoredPaths => ignoredPathsTest p
  | IgnorePattern.exactPath q => p == q

/-- Whether a chokidar `ignored` array suppresses events for a path. -/
def ignoredMatch (pats : List IgnorePattern) (p : String) : Bool :=
  pats.any (fun pat => patMatches pat p)

/-- The options object accepted by `electronReload`. Fields other than the
five named ones and the chokidar `ignored` passthrough do not influence the
behaviour modelled here (polling intervals etc. are behaviourally inert),
so only `ignored` of the `WatchOptions` passthrough is carried. -/
structure ElectronReloadOptions where
  electron : Option String := none
  electronArgv : Option (List String) := none
  appArgv : Option (List String) := none
  hardResetMethod : Option String := none
  forceHardReset : Option Bool := none
  ignored : Option (List IgnorePattern) := none
deriving DecidableEq, Repr

/-- JavaScript truthiness of the optional `electron` string
(`undefined` and the empty string are falsy). -/
def strTruthy (s : Option String) : Bool :=
  match s with
  | none => false
  | some v => !(v == "")

/-- `Object.assign({ ignored: dflt }, options)` restricted to the `ignored`
key: a caller-supplied `ignored` REPLACES the default array (Object.assign
overwrites keys; it does not merge arrays). -/
def objAssignIgnored (dflt : List IgnorePattern) (options : ElectronReloadOptions) :
    List IgnorePattern :=
  match options.ignored with
  | none => dflt
  | some ig => ig

/-- Effects of the hard-reset handler, in execution order. -/
inductive HardEffect where
  | spawn (exe : String) (args : List String) (detached : Bool) (stdio : String)
  | unref
  | appExit
  | appQuit
deriving DecidableEq, Repr

/-- `createHardResetHandler` from the source: returns (the trace of) the
closure passed to chokidar. `appPath` is `app.getAppPath()`.
Mirrors: guard `if (!executable) return;`, then
`args = (eArgv || []).concat([appPath]).concat(aArgv || [])`,
`spawn(executable, args, { detached: true, stdio: "inherit" })`,
`child.unref()`, then `app.exit()` when `hardResetMethod === "exit"`
else `app.quit()`. -/
def createHardResetHandler (appPath : String) (executable : Option String)
    (hardResetMethod : Option String) (eArgv aArgv : Option (List String)) :
    List HardEffect :=
  if !(strTruthy executable) then []
  else
    let args := ((eArgv.getD []) ++ [appPath]) ++ (aArgv.getD [])
    [HardEffect.spawn (executable.getD "") args true "inherit",
     HardEffect.unref] ++
    (if hardResetMethod == some "exit" then [HardEffect.appExit]
     else [HardEffect.appQuit])

/-- What the soft-reset handler does to one window. -/
inductive WindowAction where
  | reloadIgnoringCache (w : Nat)
deriving DecidableEq, Repr

/-- `softResetHandler`: `browserWindows.forEach((bw) =>
bw.webContents.reloadIgnoringCache())`, as the list of reload calls issued. -/
def softResetHandler (browserWindows : List Nat) : List WindowAction :=
  browserWindows.map WindowAction.reloadIgnoringCache

/-- Window-lifecycle events delivered by electron's `app` to the handlers
registered by `electronReload`. -/
inductive WinEvent where
  | created (w : Nat)
  | closed (w : Nat)
deriving DecidableEq, Repr

/-- JavaScript `Array.prototype.indexOf`: index of the first occurrence,
`-1` when absent. -/
def jsIndexOf (w : Nat) : List Nat → Int
  | [] => -1
  | a :: t =>
    if a == w then 0
    else
      let r := jsIndexOf w t
      if r < 0 then -1 else r + 1

/-- JavaScript `Array.prototype.splice(i, 1)`: a negative start counts from
the end (clamped at 0), a start past the end removes nothing. -/
def jsSplice1 (l : List Nat) (i : Int) : List Nat :=
  let len : Int := l.length
  let start : Nat := (if i < 0 then max (len + i) 0 else min i len).toNat
  l.take start ++ l.drop (start + 1)

/-- The `closed` handler body: `const i = browserWindows.indexOf(bw);
browserWindows.splice(i, 1);`. -/
def registryClose (l : List Nat) (w : Nat) : List Nat :=
  jsSplice1 l (jsIndexOf w l)

/-- One window-lifecycle event applied to the tracked array:
`browser-window-created` pushes, `closed` removes by current index. -/
def registryStep (l : List Nat) : WinEvent → List Nat
  | WinEvent.created w => l ++ [w]
  | WinEvent.closed w => registryClose l w

/-- The tracked array after a sequence of window-lifecycle events, starting
from the fresh empty array of one `electronReload` call. -/
def runRegistry (es : List WinEvent) : List Nat :=
  es.foldl registryStep []

/-- Well-formed window event sequences, as electron delivers them: a window
is created at most once, closed at most once, and only after its creation
(the `closed` handler is attached inside the `browser-window-created`
handler and fires once). `cr`/`cl` accumulate windows created/closed so far. -/
def wfAux : List Nat → List Nat → List WinEvent → Bool
  | _, _, [] => true
  | cr, cl, WinEvent.created w :: rest =>
    if w ∈ cr then false else wfAux (w :: cr) cl rest
  | cr, cl, WinEvent.closed w :: rest =>
    if w ∈ cr ∧ w ∉ cl then wfAux cr (w :: cl) rest else false

/-- Well-formedness of a full event sequence. -/
def wf (es : List WinEvent) : Prop := wfAux [] [] es = true

/-- Setup-time effects of one `electronReload` call, in source order. -/
inductive SetupEffect where
  | watchSoft (ignored : List IgnorePattern)
  | onBrowserWindowCreated
  | onChangeSoft
  | watchHard (ignored : List IgnorePattern)
  | addGlobToHard
  | closeSoft
  | onceChangeHard
deriving DecidableEq, Repr

/-- The coordinator state left behind by a successful `electronReload` call,
consumed by the change-event semantics below. -/
structure CoordState where
  glob : String
  mainFile : String
  softActive : Bool
  softIgnored : List IgnorePattern
  hardActive : Bool
  hardIgnored : List IgnorePattern
  hardWatchesGlob : Bool
  hardFired : Bool
  options : ElectronReloadOptions
  windows : List Nat
deriving DecidableEq, Repr

/-- The error message thrown on a missing executable. -/
def badExecutableMsg : String :=
  "Provided electron executable cannot be found or is not executable!"

/-- `electronReload(glob, mainFile, options)`, as the list of setup effects
performed (in order, up to the throw if any) together with either the thrown
error or the resulting coordinator state. Mirrors the source order:
create the soft watcher with `ignored` defaulted to
`[ignoredPaths, mainFile]` then overridden by `Object.assign` with the
caller options; register the `browser-window-created` handler; register the
continuous soft `change` handler; then, only when `options.electron` is
truthy: throw if `!fs.existsSync(executable)`, else create the hard watcher
over `mainFile` (default `ignored = [ignoredPaths]`, same override), widen
it with the glob and close the soft watcher when `forceHardReset === true`,
and register the one-shot hard `change` handler. -/
def electronReload (existsSync : String → Bool) (glob mainFile : String)
    (options : ElectronReloadOptions) :
    List SetupEffect × Except String CoordState :=
  let softIgnored := objAssignIgnored
    [IgnorePattern.regexIgnoredPaths, IgnorePattern.exactPath mainFile] options
  let effects0 := [SetupEffect.watchSoft softIgnored,
    SetupEffect.onBrowserWindowCreated, SetupEffect.onChangeSoft]
  let executable := options.electron
  if strTruthy executable then
    if !(existsSync (executable.getD "")) then
      (effects0, Except.error badExecutableMsg)
    else
      let hardIgnored := objAssignIgnored [IgnorePattern.regexIgnoredPaths] options
      let force := options.forceHardReset == some true
      (effects0 ++ [SetupEffect.watchHard hardIgnored] ++
        (if force then [SetupEffect.addGlobToHard, SetupEffect.closeSoft] else []) ++
        [SetupEffect.onceChangeHard],
       Except.ok
         { glob := glob, mainFile := mainFile,
           softActive := !force, softIgnored := softIgnored,
           hardActive := true, hardIgnored := hardIgnored,
           hardWatchesGlob := force, hardFired := false,
           options := options, windows := [] })
  else
    (effects0, Except.ok
      { glob := glob, mainFile := mainFile,
        softActive := true, softIgnored := softIgnored,
        hardActive := false, hardIgnored := [],
        hardWatchesGlob := false, hardFired := false,
        options := options, windows := [] })

/-- Window-lifecycle events applied to one coordinator instance's own
tracked array (the handlers registered by that call). -/
def applyWinEvents (st : CoordState) (es : List WinEvent) : CoordState :=
  { st with windows := es.foldl registryStep st.windows }

/-- What one filesystem change event produced: a soft reset (the reload
broadcast issued) or a hard reset (the hard handler's effect trace). -/
inductive ChangeOutcome where
  | soft (acts : List WindowAction)
  | hard (acts : List HardEffect)
deriving DecidableEq, Repr

/-- Whether an outcome is a soft reset. -/
def isSoft (o : ChangeOutcome) : Bool :=
  match o with
  | ChangeOutcome.soft _ => true
  | ChangeOutcome.hard _ => false

/-- Whether an outcome is a hard reset. -/
def isHard (o : ChangeOutcome) : Bool :=
  match o with
  | ChangeOutcome.soft _ => false
  | ChangeOutcome.hard _ => true

/-- The soft watcher delivers a change for path `p`: it is not closed, `p`
is under the watched glob, and `p` is not suppressed by its `ignored`. -/
def softFires (inGlob : String → String → Bool) (st : CoordState) (p : String) : Bool :=
  st.softActive && inGlob st.glob p && !(ignoredMatch st.softIgnored p)

/-- The hard watcher delivers a change for path `p` to its one-shot handler:
the watcher exists, the one-shot subscription is unconsumed, `p` is the main
file (or under the glob when `hardWatcher.add(glob)` widened it), and `p` is
not suppressed by its `ignored`. -/
def hardFires (inGlob : String → String → Bool) (st : CoordState) (p : String) : Bool :=
  st.hardActive && !st.hardFired &&
  (p == st.mainFile || (st.hardWatchesGlob && inGlob st.glob p)) &&
  !(ignoredMatch st.hardIgnored p)

/-- One filesystem change at path `p`: each watcher that delivers it runs
its handler (the continuous soft handler, and the one-shot hard handler,
which consumes its subscription). -/
def processChange (inGlob : String → String → Bool) (appPath : String)
    (st : CoordState) (p : String) : CoordState × List ChangeOutcome :=
  let softOut := if softFires inGlob st p
    then [ChangeOutcome.soft (softResetHandler st.windows)] else []
  if hardFires inGlob st p then
    ({ st with hardFired := true },
     softOut ++ [ChangeOutcome.hard (createHardResetHandler appPath
       st.options.electron st.options.hardResetMethod
       st.options.electronArgv st.options.appArgv)])
  else (st, softOut)

/-- A sequence of filesystem change events, collecting all outcomes. -/
def runChanges (inGlob : String → String → Bool) (appPath : String)
    (st : CoordState) : List String → CoordState × List ChangeOutcome
  | [] => (st, [])
  | p :: ps =>
    let r1 := processChange inGlob appPath st p
    let r2 := runChanges inGlob appPath r1.1 ps
    (r2.1, r1.2 ++ r2.2)

/-- Number of hard resets among the outcomes of a change sequence. -/
def countHard (os : List ChangeOutcome) : Nat := os.countP isHard

/-! ### Concrete fixtures used by counterexamples and witnesses -/

def exAll : String → Bool := fun _ => true

def optsForce : ElectronReloadOptions :=
  { electron := some "electron-bin", forceHardReset := some true }

def optsHard : ElectronReloadOptions := { electron := some "electron-bin" }

def optsPlain : ElectronReloadOptions := {}

def stForce : CoordState :=
  { glob := "app", mainFile := "app/main.js", softActive := false,
    softIgnored := [IgnorePattern.regexIgnoredPaths,
      IgnorePattern.exactPath "app/main.js"],
    hardActive := true, hardIgnored := [IgnorePattern.regexIgnoredPaths],
    hardWatchesGlob := true, hardFired := false,
    options := optsForce, windows := [] }

def stHard : CoordState :=
  { glob := "app", mainFile := "app/main.js", softActive := true,
    softIgnored := [IgnorePattern.regexIgnoredPaths,
      IgnorePattern.exactPath "app/main.js"],
    hardActive := true, hardIgnored := [IgnorePattern.regexIgnoredPaths],
    hardWatchesGlob := false, hardFired := false,
    options := optsHard, windows := [] }

def stForceLib : CoordState :=
  { glob := "lib", mainFile := "lib/main.js", softActive := false,
    softIgnored := [IgnorePattern.regexIgnoredPaths,
      IgnorePattern.exactPath "lib/main.js"],
    hardActive := true, hardIgnored := [IgnorePattern.regexIgnoredPaths],
    hardWatchesGlob := true, hardFired := false,
    options := optsForce, windows := [] }

def stPlain : CoordState :=
  { glob := "app", mainFile := "app/main.js", softActive := true,
    softIgnored := [IgnorePattern.regexIgnoredPaths,
      IgnorePattern.exactPath "app/main.js"],
    hardActive := false, hardIgnored := [],
    hardWatchesGlob := false, hardFired := false,
    options := optsPlain, windows := [] }

/-! ### Characterization of the two successful setup shapes -/

theorem setup_ok_electron (ex : String → Bool) (g m : String)
    (o : ElectronReloadOptions) (st : CoordState)
    (htru : strTruthy o.electron = true)
    (hok : (electronReload ex g m o).2 = Except.ok st) :
    ex (o.electron.getD "") = true ∧
    (electronReload ex g m o).1 =
      [SetupEffect.watchSoft (objAssignIgnored
          [IgnorePattern.regexIgnoredPaths, IgnorePattern.exactPath m] o),
       SetupEffect.onBrowserWindowCreated, SetupEffect.onChangeSoft] ++
      [SetupEffect.watchHard (objAssignIgnored [IgnorePattern.regexIgnoredPaths] o)] ++
      (if o.forceHardReset == some true
        then [SetupEffect.addGlobToHard, SetupEffect.closeSoft] else []) ++
      [SetupEffect.onceChangeHard] ∧
    st = { glob := g, mainFile := m,
           softActive := !(o.forceHardReset == some true),
           softIgnored := objAssignIgnored
             [IgnorePattern.regexIgnoredPaths, IgnorePattern.exactPath m] o,
           hardActive := true,
           hardIgnored := objAssignIgnored [IgnorePattern.regexIgnoredPaths] o,
           hardWatchesGlob := (o.forceHardReset == some true),
           hardFired := false, options := o, windows := [] } := by
  by_cases hex : ex (o.electron.getD "") = true
  · refine ⟨hex, ?_, ?_⟩
    · simp [electronReload, htru, hex]
    · simp only [electronReload, htru, hex, if_true, Bool.not_true,
        Bool.false_eq_true, if_false] at hok
      exact (Except.ok.injEq _ _).mp hok.symm
  · exfalso
    have hexf : ex (o.electron.getD "") = false := by
      simpa using hex
    simp [electronReload, htru, hexf] at hok

theorem setup_ok_no_electron (ex : String → Bool) (g m : String)
    (o : ElectronReloadOptions) (st : CoordState)
    (htru : strTruthy o.electron = false)
    (hok : (electronReload ex g m o).2 = Except.ok st) :
    (electronReload ex g m o).1 =
      [SetupEffect.watchSoft (objAssignIgnored
          [IgnorePattern.regexIgnoredPaths, IgnorePattern.exactPath m] o),
       SetupEffect.onBrowserWindowCreated, SetupEffect.onChangeSoft] ∧
    st = { glob := g, mainFile := m,
           softActive := true,
           softIgnored := objAssignIgnored
             [IgnorePattern.regexIgnoredPaths, IgnorePattern.exactPath m] o,
           hardActive := false, hardIgnored := [],
           hardWatchesGlob := false, hardFired := false,
           options := o, windows := [] } := by
  refine ⟨by simp [electronReload, htru], ?_⟩
  simp only [electronReload, htru, Bool.false_eq_true, if_false] at hok
  exact (Except.ok.injEq _ _).mp hok.symm

theorem setup_ok_windows_nil (ex : String → Bool) (g m : String)
    (o : ElectronReloadOptions) (st : CoordState)
    (hok : (electronReload ex g m o).2 = Except.ok st) :
    st.windows = [] := by
  by_cases htru : strTruthy o.electron = true
  · obtain ⟨-, -, hst⟩ := setup_ok_electron ex g m o st htru hok
    rw [hst]
  · obtain ⟨-, hst⟩ := setup_ok_no_electron ex g m o st (by simpa using htru) hok
    rw [hst]

/-! ### Lemmas about change-event processing -/

theorem runChanges_nil (inGlob : String → String → Bool) (appPath : String)
    (st : CoordState) : runChanges inGlob appPath st [] = (st, []) := rfl

theorem runChanges_cons (inGlob : String → String → Bool) (appPath : String)
    (st : CoordState) (p : String) (ps : List String) :
    runChanges inGlob appPath st (p :: ps) =
      ((runChanges inGlob appPath (processChange inGlob appPath st p).1 ps).1,
       (processChange inGlob appPath st p).2 ++
         (runChanges inGlob appPath (processChange inGlob appPath st p).1 ps).2) := rfl

theorem processChange_state (inGlob : String → String → Bool) (appPath : String)
    (st : CoordState) (p : String) :
    (processChange inGlob appPath st p).1 =
      if hardFires inGlob st p then { st with hardFired := true } else st := by
  unfold processChange
  by_cases h : hardFires inGlob st p = true <;> simp [h]

theorem processChange_outcomes (inGlob : String → String → Bool) (appPath : String)
    (st : CoordState) (p : String) :
    (processChange inGlob appPath st p).2 =
      (if softFires inGlob st p
        then [ChangeOutcome.soft (softResetHandler st.windows)] else []) ++
      (if hardFires inGlob st p
        then [ChangeOutcome.hard (createHardResetHandler appPath
          st.options.electron st.options.hardResetMethod
          st.options.electronArgv st.options.appArgv)] else []) := by
  unfold processChange
  by_cases h : hardFires inGlob st p = true <;> simp [h]

theorem processChange_preserves (inGlob : String → String → Bool) (appPath : String)
    (st : CoordState) (p : String) :
    (processChange inGlob appPath st p).1.softActive = st.softActive ∧
    (processChange inGlob appPath st p).1.hardActive = st.hardActive := by
  rw [processChange_state]
  split <;> simp

theorem softInactive_no_soft (inGlob : String → String → Bool) (appPath : String) :
    ∀ (ps : List String) (st : CoordState), st.softActive = false →
      ∀ o ∈ (runChanges inGlob appPath st ps).2, isSoft o = false := by
  intro ps
  induction ps with
  | nil =>
    intro st h o ho
    rw [runChanges_nil] at ho
    simp at ho
  | cons p ps ih =>
    intro st h o ho
    rw [runChanges_cons] at ho
    simp only [List.mem_append] at ho
    rcases ho with ho | ho
    · rw [processChange_outcomes] at ho
      have hsf : softFires inGlob st p = false := by
        simp [softFires, h]
      rw [hsf] at ho
      simp only [Bool.false_eq_true, if_false, List.nil_append] at ho
      split at ho
      · simp only [List.mem_singleton] at ho
        rw [ho]
        rfl
      · simp at ho
    · have hsa : (processChange inGlob appPath st p).1.softActive = false := by
        rw [(processChange_preserves inGlob appPath st p).1]
        exact h
      exact ih (processChange inGlob appPath st p).1 hsa o ho

theorem hardFired_stops (inGlob : String → String → Bool) (appPath : String) :
    ∀ (ps : List String) (st : CoordState), st.hardFired = true →
      countHard (runChanges inGlob appPath st ps).2 = 0 := by
  intro ps
  induction ps with
  | nil =>
    intro st h
    rw [runChanges_nil]
    rfl
  | cons p ps ih =>
    intro st h
    have hhf : hardFires inGlob st p = false := by
      simp [hardFires, h]
    have hstate : (processChange inGlob appPath st p).1 = st := by
      rw [processChange_state, hhf]
      simp
    rw [runChanges_cons]
    simp only [countHard, List.countP_append] at *
    rw [processChange_outcomes, hhf]
    simp only [Bool.false_eq_true, if_false, List.append_nil]
    rw [hstate]
    have hrest := ih st h
    split
    · simp only [List.countP_cons, List.countP_nil]
      rw [hrest]
      rfl
    · simp only [List.countP_nil]
      rw [hrest]

theorem hardInactive_no_hard (inGlob : String → String → Bool) (appPath : String) :
    ∀ (ps : List String) (st : CoordState), st.hardActive = false →
      countHard (runChanges inGlob appPath st ps).2 = 0 := by
  intro ps
  induction ps with
  | nil =>
    intro st h
    rw [runChanges_nil]
    rfl
  | cons p ps ih =>
    intro st h
    have hhf : hardFires inGlob st p = false := by
      simp [hardFires, h]
    rw [runChanges_cons]
    simp only [countHard, List.countP_append]
    rw [processChange_outcomes, hhf]
    simp only [Bool.false_eq_true, if_false, List.append_nil]
    have hha : (processChange inGlob appPath st p).1.hardActive = false := by
      rw [(processChange_preserves inGlob appPath st p).2]
      exact h
    have hrest := ih (processChange inGlob appPath st p).1 hha
    simp only [countHard] at hrest
    rw [hrest]
    split
    · rfl
    · rfl

theorem countHard_le_one (inGlob : String → String → Bool) (appPath : String) :
    ∀ (ps : List String) (st : CoordState),
      countHard (runChanges inGlob appPath st ps).2 ≤ 1 := by
  intro ps
  induction ps with
  | nil =>
    intro st
    rw [runChanges_nil]
    exact Nat.zero_le 1
  | cons p ps ih =>
    intro st
    rw [runChanges_cons]
    simp only [countHard, List.countP_append]
    rw [processChange_outcomes]
    by_cases hhf : hardFires inGlob st p = true
    · have hfired : (processChange inGlob appPath st p).1.hardFired = true := by
        rw [processChange_state, hhf]
        simp
      have hrest := hardFired_stops inGlob appPath ps
        (processChange inGlob appPath st p).1 hfired
      simp only [countHard] at hrest
      rw [hrest, hhf]
      split <;> simp [isHard, isSoft]
    · have hhf2 : hardFires inGlob st p = false := by simpa using hhf
      rw [hhf2]
      simp only [Bool.false_eq_true, if_false, List.append_nil]
      have hrest := ih (processChange inGlob appPath st p).1
      simp only [countHard] at hrest
      split
      · simp only [List.countP_cons, List.countP_nil, isHard,
          Bool.false_eq_true, if_false]
        omega
      · simp only [List.countP_nil]
        omega

/-! ### C1 -/

/-- C1 counterexample: with a non-existent relaunch executable the setup
error is thrown, but the soft watch subscription, the window-created
handler and the continuous soft change handler were already established
before the throw, and the soft watcher is never closed — so it is false
that no watch subscription exists and that no soft-watch change handler
can fire afterwards. -/
theorem setup_throw_leaves_soft_watcher_cex :
    (electronReload (fun _ => false) "app" "app/main.js"
      { electron := some "electron-bin" }).2 = Except.error badExecutableMsg ∧
    (electronReload (fun _ => false) "app" "app/main.js"
      { electron := some "electron-bin" }).1 =
      [SetupEffect.watchSoft [IgnorePattern.regexIgnoredPaths,
          IgnorePattern.exactPath "app/main.js"],
       SetupEffect.onBrowserWindowCreated, SetupEffect.onChangeSoft] :=
  ⟨rfl, rfl⟩

/-- C1 (amended): when the configured relaunch executable fails the
existence check, `electronReload` throws the configuration error before
the hard watcher and its one-shot subscription are established, but after
the soft watch subscription and its change handler have been established;
the soft watcher is not closed, so it remains running. -/
theorem setup_throw_before_hard_watch (ex : String → Bool) (g m : String)
    (o : ElectronReloadOptions)
    (htru : strTruthy o.electron = true)
    (hex : ex (o.electron.getD "") = false) :
    (electronReload ex g m o).2 = Except.error badExecutableMsg ∧
    (∀ ig, SetupEffect.watchHard ig ∉ (electronReload ex g m o).1) ∧
    SetupEffect.onceChangeHard ∉ (electronReload ex g m o).1 ∧
    SetupEffect.watchSoft (objAssignIgnored
      [IgnorePattern.regexIgnoredPaths, IgnorePattern.exactPath m] o) ∈
      (electronReload ex g m o).1 ∧
    SetupEffect.onChangeSoft ∈ (electronReload ex g m o).1 ∧
    SetupEffect.closeSoft ∉ (electronReload ex g m o).1 := by
  simp [electronReload, htru, hex]

theorem setup_throw_before_hard_watch_witness :
    strTruthy (ElectronReloadOptions.electron
      { electron := some "electron-bin" }) = true ∧
    (fun _ : String => false)
      ((ElectronReloadOptions.electron
        { electron := some "electron-bin" }).getD "") = false ∧
    (electronReload (fun _ => false) "app" "app/main.js"
      { electron := some "electron-bin" }).2 = Except.error badExecutableMsg :=
  ⟨by decide, rfl,
    (setup_throw_before_hard_watch (fun _ => false) "app" "app/main.js"
      { electron := some "electron-bin" } (by decide) rfl).1⟩

/-! ### C6 and C7: the hard-reset handler -/

/-- C6: in every hard reset the spawned replacement process receives the
argument list runtime-arguments ++ [application-root-path] ++
application-arguments, an absent `electronArgv` or `appArgv` standing for
the empty list. -/
theorem hard_reset_args_shape (appPath : String) (executable : Option String)
    (hrm : Option String) (eArgv aArgv : Option (List String))
    (h : strTruthy executable = true) :
    ∃ tail, createHardResetHandler appPath executable hrm eArgv aArgv =
      HardEffect.spawn (executable.getD "")
        (eArgv.getD [] ++ [appPath] ++ aArgv.getD []) true "inherit" :: tail := by
  unfold createHardResetHandler
  rw [h]
  exact ⟨_, rfl⟩

theorem hard_reset_args_shape_witness :
    strTruthy (some "electron-bin") = true ∧
    ∃ tail, createHardResetHandler "/proj" (some "electron-bin") (some "exit")
        (some ["-r"]) (some ["--dev"]) =
      HardEffect.spawn ((some "electron-bin").getD "")
        ((some ["-r"]).getD [] ++ ["/proj"] ++ (some ["--dev"]).getD [])
        true "inherit" :: tail :=
  ⟨by decide, hard_reset_args_shape "/proj" (some "electron-bin") (some "exit")
    (some ["-r"]) (some ["--dev"]) (by decide)⟩

/-- C7: every execution of the hard-reset action spawns the replacement
process detached with inherited standard streams, releases its handle
(`unref`), and only then invokes exactly one termination primitive —
`app.exit` when `hardResetMethod` is "exit", `app.quit` otherwise. -/
theorem hard_reset_spawn_before_terminate (appPath : String)
    (executable : Option String) (hrm : Option String)
    (eArgv aArgv : Option (List String))
    (h : strTruthy executable = true) :
    ∃ args, createHardResetHandler appPath executable hrm eArgv aArgv =
      [HardEffect.spawn (executable.getD "") args true "inherit",
       HardEffect.unref,
       if hrm == some "exit" then HardEffect.appExit else HardEffect.appQuit] := by
  refine ⟨eArgv.getD [] ++ [appPath] ++ aArgv.getD [], ?_⟩
  unfold createHardResetHandler
  rw [h]
  by_cases hm : (hrm == some "exit") = true
  · simp [hm]
  · simp [hm]

theorem hard_reset_spawn_before_terminate_witness :
    strTruthy (some "electron-bin") = true ∧
    ∃ args, createHardResetHandler "/proj" (some "electron-bin") (some "quit")
        none none =
      [HardEffect.spawn ((some "electron-bin").getD "") args true "inherit",
       HardEffect.unref,
       if (some "quit" : Option String) == some "exit" then HardEffect.appExit
       else HardEffect.appQuit] :=
  ⟨by decide, hard_reset_spawn_before_terminate "/proj" (some "electron-bin")
    (some "quit") none none (by decide)⟩

/-! ### C8: the soft watcher ignore set and Object.assign -/

/-- C8 counterexample: with a caller-supplied `ignored` option (here the
empty list), the soft watch subscription is established with exactly that
list — the fixed dependency/dot-file rule and the entry-point exclusion are
absent and do not take effect: the entry-point path is not suppressed. -/
theorem ignored_override_replaces_default_cex :
    (electronReload (fun _ => true) "app" "app/main.js"
      { ignored := some [] }).1 =
      [SetupEffect.watchSoft [], SetupEffect.onBrowserWindowCreated,
       SetupEffect.onChangeSoft] ∧
    ignoredMatch [] "app/main.js" = false := by
  decide

/-- C8 (amended): the soft watch subscription is established with an
`ignored` set that defaults to the fixed dependency/dot-file rule plus the
entry-point file, but `Object.assign` merging of caller options means a
caller-supplied `ignored` replaces this default entirely rather than being
combined with it. -/
theorem soft_watch_ignored_default_or_override (ex : String → Bool)
    (g m : String) (o : ElectronReloadOptions) :
    SetupEffect.watchSoft
      (match o.ignored with
       | none => [IgnorePattern.regexIgnoredPaths, IgnorePattern.exactPath m]
       | some ig => ig) ∈ (electronReload ex g m o).1 := by
  have hob : (match o.ignored with
      | none => [IgnorePattern.regexIgnoredPaths, IgnorePattern.exactPath m]
      | some ig => ig) =
      objAssignIgnored [IgnorePattern.regexIgnoredPaths, IgnorePattern.exactPath m] o := by
    unfold objAssignIgnored
    rfl
  rw [hob]
  by_cases htru : strTruthy o.electron = true
  · by_cases hex : ex (o.electron.getD "") = true
    · simp [electronReload, htru, hex]
    · have hexf : ex (o.electron.getD "") = false := by simpa using hex
      simp [electronReload, htru, hexf]
  · have htruf : strTruthy o.electron = false := by simpa using htru
    simp [electronReload, htruf]

/-! ### C2 -/

/-- C2: with a relaunch executable configured and `forceHardReset` true,
setup widens the hard watcher to the full glob (`hardWatcher.add(glob)`)
and closes the soft watch subscription (`watcher.close()`), so after setup
no subsequent change event ever produces a soft-reset broadcast. -/
theorem forceHardReset_disables_soft (ex : String → Bool) (g m : String)
    (o : ElectronReloadOptions) (st : CoordState)
    (hforce : o.forceHardReset = some true)
    (htru : strTruthy o.electron = true)
    (hok : (electronReload ex g m o).2 = Except.ok st) :
    st.softActive = false ∧ st.hardWatchesGlob = true ∧
    SetupEffect.closeSoft ∈ (electronReload ex g m o).1 ∧
    SetupEffect.addGlobToHard ∈ (electronReload ex g m o).1 ∧
    ∀ (inGlob : String → String → Bool) (appPath : String) (ps : List String),
      ∀ oc ∈ (runChanges inGlob appPath st ps).2, isSoft oc = false := by
  obtain ⟨hex, heff, hst⟩ := setup_ok_electron ex g m o st htru hok
  have hfb : (o.forceHardReset == some true) = true := by
    rw [hforce]
    rfl
  have hsa : st.softActive = false := by
    rw [hst]
    simp [hfb]
  refine ⟨hsa, by rw [hst]; simp [hfb], ?_, ?_, ?_⟩
  · rw [heff]
    simp [hfb]
  · rw [heff]
    simp [hfb]
  · intro inGlob appPath ps oc hoc
    exact softInactive_no_soft inGlob appPath ps st hsa oc hoc

theorem forceHardReset_disables_soft_witness :
    optsForce.forceHardReset = some true ∧
    strTruthy optsForce.electron = true ∧
    (electronReload exAll "app" "app/main.js" optsForce).2 = Except.ok stForce ∧
    stForce.softActive = false :=
  ⟨rfl, by decide, rfl,
    (forceHardReset_disables_soft exAll "app" "app/main.js" optsForce stForce
      rfl (by decide) rfl).1⟩

/-! ### C3 -/

/-- C3 counterexample: with no relaunch executable configured but a
caller-supplied `ignored` option (which replaces the default exclusion
including the entry-point file), a change to the entry-point file DOES
produce a reset action: a soft-reset broadcast to the open window. -/
theorem no_electron_mainFile_soft_fires_cex :
    ((electronReload exAll "app" "app/main.js"
      { electron := none, ignored := some [] }).2.map
        (fun st => (processChange (fun _ _ => true) "/proj"
          (applyWinEvents st [WinEvent.created 1]) "app/main.js").2)) =
      Except.ok [ChangeOutcome.soft [WindowAction.reloadIgnoringCache 1]] := rfl

/-- C3 (amended): with no relaunch executable configured and no
caller-supplied `ignored` option, a change to the entry-point file produces
no reset action at all (the entry-point is excluded from the soft watcher
by the default rule, and no hard watcher exists); and regardless of the
change sequence, a hard reset never occurs and no hard watcher was
established. -/
theorem no_electron_mainFile_no_action (ex : String → Bool) (g m : String)
    (o : ElectronReloadOptions) (st : CoordState)
    (hel : o.electron = none)
    (hig : o.ignored = none)
    (hok : (electronReload ex g m o).2 = Except.ok st) :
    (∀ (inGlob : String → String → Bool) (appPath : String)
        (es : List WinEvent),
      processChange inGlob appPath (applyWinEvents st es) m =
        (applyWinEvents st es, [])) ∧
    (∀ (inGlob : String → String → Bool) (appPath : String)
        (es : List WinEvent) (ps : List String),
      countHard (runChanges inGlob appPath (applyWinEvents st es) ps).2 = 0) ∧
    (∀ ig, SetupEffect.watchHard ig ∉ (electronReload ex g m o).1) := by
  have htru : strTruthy o.electron = false := by
    rw [hel]
    rfl
  obtain ⟨heff, hst⟩ := setup_ok_no_electron ex g m o st htru hok
  have hsoftig : st.softIgnored =
      [IgnorePattern.regexIgnoredPaths, IgnorePattern.exactPath m] := by
    rw [hst]
    simp [objAssignIgnored, hig]
  have hmf : st.mainFile = m := by rw [hst]
  have hha : st.hardActive = false := by rw [hst]
  refine ⟨?_, ?_, ?_⟩
  · intro inGlob appPath es
    have hig2 : ignoredMatch (applyWinEvents st es).softIgnored m = true := by
      simp only [applyWinEvents]
      rw [hsoftig]
      simp [ignoredMatch, patMatches]
    have hsf : softFires inGlob (applyWinEvents st es) m = false := by
      simp [softFires, hig2]
    have hhf : hardFires inGlob (applyWinEvents st es) m = false := by
      simp only [applyWinEvents]
      simp [hardFires, hha]
    have h1 : (processChange inGlob appPath (applyWinEvents st es) m).1 =
        applyWinEvents st es := by
      rw [processChange_state, hhf]
      simp
    have h2 : (processChange inGlob appPath (applyWinEvents st es) m).2 = [] := by
      rw [processChange_outcomes, hsf, hhf]
      simp
    calc processChange inGlob appPath (applyWinEvents st es) m
        = ((processChange inGlob appPath (applyWinEvents st es) m).1,
           (processChange inGlob appPath (applyWinEvents st es) m).2) := rfl
      _ = (applyWinEvents st es, []) := by rw [h1, h2]
  · intro inGlob appPath es ps
    have hha2 : (applyWinEvents st es).hardActive = false := by
      simp only [applyWinEvents]
      exact hha
    exact hardInactive_no_hard inGlob appPath ps (applyWinEvents st es) hha2
  · intro ig
    rw [heff]
    simp

theorem no_electron_mainFile_no_action_witness :
    optsPlain.electron = none ∧
    optsPlain.ignored = none ∧
    (electronReload exAll "app" "app/main.js" optsPlain).2 = Except.ok stPlain ∧
    processChange (fun _ _ => true) "/proj"
        (applyWinEvents stPlain [WinEvent.created 1]) "app/main.js" =
      (applyWinEvents stPlain [WinEvent.created 1], []) :=
  ⟨rfl, rfl, rfl,
    (no_electron_mainFile_no_action exAll "app" "app/main.js" optsPlain stPlain
      rfl rfl rfl).1 (fun _ _ => true) "/proj" [WinEvent.created 1]⟩

/-! ### C9 -/

/-- C9: when a relaunch executable is configured, setup registers the
hard-reset handler through the one-shot `once("change", ...)` subscription,
and across every sequence of change events the hard-reset action executes
at most once per coordinator instance. -/
theorem hard_reset_at_most_once (ex : String → Bool) (g m : String)
    (o : ElectronReloadOptions) (st : CoordState)
    (htru : strTruthy o.electron = true)
    (hok : (electronReload ex g m o).2 = Except.ok st) :
    SetupEffect.onceChangeHard ∈ (electronReload ex g m o).1 ∧
    ∀ (inGlob : String → String → Bool) (appPath : String) (ps : List String),
      countHard (runChanges inGlob appPath st ps).2 ≤ 1 := by
  obtain ⟨hex, heff, hst⟩ := setup_ok_electron ex g m o st htru hok
  constructor
  · rw [heff]
    simp
  · intro inGlob appPath ps
    exact countHard_le_one inGlob appPath ps st

theorem hard_reset_at_most_once_witness :
    strTruthy optsHard.electron = true ∧
    (electronReload exAll "app" "app/main.js" optsHard).2 = Except.ok stHard ∧
    SetupEffect.onceChangeHard ∈ (electronReload exAll "app" "app/main.js" optsHard).1 :=
  ⟨by decide, rfl,
    (hard_reset_at_most_once exAll "app" "app/main.js" optsHard stHard
      (by decide) rfl).1⟩

/-! ### C10 -/

/-- C10: every call to `electronReload` constructs its own fresh, initially
empty window collection; the tracked set of each instance is a function of
the window events applied to that instance alone, so two invocations in the
same process never share or mutate each other's tracked window set. -/
theorem fresh_windows_per_call (ex1 ex2 : String → Bool) (g1 g2 m1 m2 : String)
    (o1 o2 : ElectronReloadOptions) (st1 st2 : CoordState)
    (h1 : (electronReload ex1 g1 m1 o1).2 = Except.ok st1)
    (h2 : (electronReload ex2 g2 m2 o2).2 = Except.ok st2) :
    st1.windows = [] ∧ st2.windows = [] ∧
    ∀ es1 es2 : List WinEvent,
      (applyWinEvents st1 es1).windows = runRegistry es1 ∧
      (applyWinEvents st2 es2).windows = runRegistry es2 := by
  have hw1 := setup_ok_windows_nil ex1 g1 m1 o1 st1 h1
  have hw2 := setup_ok_windows_nil ex2 g2 m2 o2 st2 h2
  refine ⟨hw1, hw2, fun es1 es2 => ⟨?_, ?_⟩⟩
  · simp [applyWinEvents, hw1, runRegistry]
  · simp [applyWinEvents, hw2, runRegistry]

theorem fresh_windows_per_call_witness :
    (electronReload exAll "app" "app/main.js" optsPlain).2 = Except.ok stPlain ∧
    (electronReload exAll "lib" "lib/main.js" optsForce).2 =
      Except.ok stForceLib ∧
    stPlain.windows = [] :=
  ⟨rfl, rfl,
    (fresh_windows_per_call exAll exAll "app" "lib" "app/main.js" "lib/main.js"
      optsPlain optsForce stPlain stForceLib rfl rfl).1⟩

/-! ### Registry lemmas: indexOf plus splice is erase for present elements -/

theorem jsIndexOf_nonneg (w : Nat) : ∀ l : List Nat, w ∈ l → 0 ≤ jsIndexOf w l := by
  intro l
  induction l with
  | nil => intro h; simp at h
  | cons a t ih =>
    intro h
    rw [jsIndexOf]
    by_cases haw : (a == w) = true
    · rw [if_pos haw]
    · rw [if_neg haw]
      have hwt : w ∈ t := by
        rcases List.mem_cons.mp h with rfl | h2
        · exact absurd (by simp) haw
        · exact h2
      have hn := ih hwt
      simp only []
      rw [if_neg (by omega)]
      omega

theorem jsIndexOf_lt_length (w : Nat) :
    ∀ l : List Nat, w ∈ l → jsIndexOf w l < (l.length : Int) := by
  intro l
  induction l with
  | nil => intro h; simp at h
  | cons a t ih =>
    intro h
    rw [jsIndexOf]
    by_cases haw : (a == w) = true
    · rw [if_pos haw]
      simp
    · rw [if_neg haw]
      have hwt : w ∈ t := by
        rcases List.mem_cons.mp h with rfl | h2
        · exact absurd (by simp) haw
        · exact h2
      have hlt := ih hwt
      have hn := jsIndexOf_nonneg w t hwt
      simp only []
      rw [if_neg (by omega)]
      simp only [List.length_cons]
      push_cast
      omega

theorem jsSplice1_ofNat (l : List Nat) (n : Nat) (h : n < l.length) :
    jsSplice1 l (n : Int) = l.take n ++ l.drop (n + 1) := by
  unfold jsSplice1
  have h1 : ¬((n : Int) < 0) := by omega
  have h2 : min (n : Int) (l.length : Int) = (n : Int) :=
    min_eq_left (by exact_mod_cast Nat.le_of_lt h)
  dsimp only
  rw [if_neg h1, h2]
  simp

theorem registryClose_of_mem (w : Nat) :
    ∀ l : List Nat, w ∈ l → registryClose l w = l.erase w := by
  intro l
  induction l with
  | nil => intro h; simp at h
  | cons a t ih =>
    intro h
    by_cases haw : (a == w) = true
    · have ha : a = w := by simpa using haw
      subst ha
      have hidx : jsIndexOf a (a :: t) = ((0 : Nat) : Int) := by
        rw [jsIndexOf]
        simp
      rw [registryClose, hidx, jsSplice1_ofNat (a :: t) 0 (by simp)]
      simp [List.erase_cons_head]
    · have hane : a ≠ w := by simpa using haw
      have hwt : w ∈ t := by
        rcases List.mem_cons.mp h with rfl | h2
        · exact absurd rfl hane
        · exact h2
      have hr0 := jsIndexOf_nonneg w t hwt
      have hrlen := jsIndexOf_lt_length w t hwt
      obtain ⟨n, hn⟩ : ∃ n : Nat, jsIndexOf w t = (n : Int) :=
        ⟨(jsIndexOf w t).toNat, (Int.toNat_of_nonneg hr0).symm⟩
      have hnlen : n < t.length := by
        rw [hn] at hrlen
        exact_mod_cast hrlen
      have hidx : jsIndexOf w (a :: t) = ((n + 1 : Nat) : Int) := by
        rw [jsIndexOf, if_neg haw]
        simp only []
        rw [hn, if_neg (by omega)]
        push_cast
        ring
      rw [registryClose, hidx, jsSplice1_ofNat (a :: t) (n + 1)
        (by simp only [List.length_cons]; omega)]
      have ht := ih hwt
      rw [registryClose, hn, jsSplice1_ofNat t n hnlen] at ht
      rw [List.erase_cons_tail]
      · rw [← ht]
        simp [List.take_succ_cons, List.drop_succ_cons]
      · simpa using hane

theorem registry_go : ∀ (es : List WinEvent) (cr cl l : List Nat),
    wfAux cr cl es = true → l.Nodup →
    (∀ x, x ∈ cl → x ∈ cr) →
    (∀ x, x ∈ l ↔ (x ∈ cr ∧ x ∉ cl)) →
    (es.foldl registryStep l).Nodup ∧
    (∀ x, x ∈ es.foldl registryStep l ↔
      ((x ∈ cr ∨ WinEvent.created x ∈ es) ∧
       ¬(x ∈ cl ∨ WinEvent.closed x ∈ es))) := by
  intro es
  induction es with
  | nil =>
    intro cr cl l hwf hnd hsub hmem
    refine ⟨hnd, fun x => ?_⟩
    rw [List.foldl_nil, hmem x]
    simp
  | cons e rest ih =>
    intro cr cl l hwf hnd hsub hmem
    cases e with
    | created w =>
      rw [wfAux] at hwf
      split at hwf
      · exact absurd hwf (by simp)
      · rename_i hwcr
        have hwcl : w ∉ cl := fun hc => hwcr (hsub w hc)
        have hwl : w ∉ l := fun hl => hwcr ((hmem w).mp hl).1
        have hnd2 : (l ++ [w]).Nodup := by
          simp [List.nodup_append, hnd, hwl]
        have hsub2 : ∀ x, x ∈ cl → x ∈ w :: cr :=
          fun x hx => List.mem_cons_of_mem _ (hsub x hx)
        have hmem2 : ∀ x, x ∈ l ++ [w] ↔ (x ∈ w :: cr ∧ x ∉ cl) := by
          intro x
          rw [List.mem_append, List.mem_singleton, List.mem_cons]
          constructor
          · rintro (hx | rfl)
            · obtain ⟨hxc, hxn⟩ := (hmem x).mp hx
              exact ⟨Or.inr hxc, hxn⟩
            · exact ⟨Or.inl rfl, hwcl⟩
          · rintro ⟨rfl | hx2, hxn⟩
            · exact Or.inr rfl
            · exact Or.inl ((hmem x).mpr ⟨hx2, hxn⟩)
        obtain ⟨hh1, hh2⟩ := ih (w :: cr) cl (l ++ [w]) hwf hnd2 hsub2 hmem2
        have hstep : registryStep l (WinEvent.created w) = l ++ [w] := rfl
        rw [List.foldl_cons, hstep]
        refine ⟨hh1, fun x => ?_⟩
        have hcreated : (WinEvent.created x ∈ WinEvent.created w :: rest) ↔
            (x = w ∨ WinEvent.created x ∈ rest) := by
          rw [List.mem_cons]
          constructor
          · rintro (hc | hc)
            · injection hc with hc
              exact Or.inl hc
            · exact Or.inr hc
          · rintro (rfl | hc)
            · exact Or.inl rfl
            · exact Or.inr hc
        have hclosed : (WinEvent.closed x ∈ WinEvent.created w :: rest) ↔
            WinEvent.closed x ∈ rest := by
          rw [List.mem_cons]
          constructor
          · rintro (hc | hc)
            · exact WinEvent.noConfusion hc
            · exact hc
          · exact Or.inr
        rw [hh2 x, hcreated, hclosed, List.mem_cons]
        tauto
    | closed w =>
      rw [wfAux] at hwf
      split at hwf
      · rename_i hcond
        obtain ⟨hwcr, hwcl⟩ := hcond
        have hwl : w ∈ l := (hmem w).mpr ⟨hwcr, hwcl⟩
        have hstep : registryStep l (WinEvent.closed w) = l.erase w :=
          registryClose_of_mem w l hwl
        have hnd2 : (l.erase w).Nodup := hnd.erase w
        have hsub2 : ∀ x, x ∈ w :: cl → x ∈ cr := by
          intro x hx
          rcases List.mem_cons.mp hx with rfl | hx2
          · exact hwcr
          · exact hsub x hx2
        have hmem2 : ∀ x, x ∈ l.erase w ↔ (x ∈ cr ∧ x ∉ w :: cl) := by
          intro x
          rw [hnd.mem_erase_iff, List.mem_cons]
          constructor
          · rintro ⟨hne, hx⟩
            obtain ⟨hxc, hxn⟩ := (hmem x).mp hx
            exact ⟨hxc, fun hor => hor.elim hne hxn⟩
          · rintro ⟨hxc, hnor⟩
            exact ⟨fun he => hnor (Or.inl he),
              (hmem x).mpr ⟨hxc, fun hc => hnor (Or.inr hc)⟩⟩
        obtain ⟨hh1, hh2⟩ := ih cr (w :: cl) (l.erase w) hwf hnd2 hsub2 hmem2
        rw [List.foldl_cons, hstep]
        refine ⟨hh1, fun x => ?_⟩
        have hcreated : (WinEvent.created x ∈ WinEvent.closed w :: rest) ↔
            WinEvent.created x ∈ rest := by
          rw [List.mem_cons]
          constructor
          · rintro (hc | hc)
            · exact WinEvent.noConfusion hc
            · exact hc
          · exact Or.inr
        have hclosed : (WinEvent.closed x ∈ WinEvent.closed w :: rest) ↔
            (x = w ∨ WinEvent.closed x ∈ rest) := by
          rw [List.mem_cons]
          constructor
          · rintro (hc | hc)
            · injection hc with hc
              exact Or.inl hc
            · exact Or.inr hc
          · rintro (rfl | hc)
            · exact Or.inl rfl
            · exact Or.inr hc
        rw [hh2 x, hcreated, hclosed, List.mem_cons]
        tauto
      · exact absurd hwf (by simp)

/-- The registry invariant: under electron's delivery discipline, the
tracked array holds exactly the created-but-not-closed windows, each
once. Shared by the theorems about the Window Registry and the soft
broadcast. -/
theorem registry_invariant (es : List WinEvent) (h : wf es) :
    (runRegistry es).Nodup ∧
    ∀ w, w ∈ runRegistry es ↔
      (WinEvent.created w ∈ es ∧ WinEvent.closed w ∉ es) := by
  obtain ⟨h1, h2⟩ := registry_go es [] [] [] h List.nodup_nil
    (by simp) (by simp)
  exact ⟨h1, fun w => by simpa using h2 w⟩

/-! ### C4 -/

/-- C4: for every well-formed sequence of window-created and window-closed
events (each window created at most once, closed at most once and only
after creation — electron's delivery discipline), the tracked collection
holds exactly the windows created but not yet closed, with no duplicates
and no closed window remaining; the close handler's index-then-splice
removal (re-resolving the index at removal time) removes exactly the
closing window. -/
theorem registry_tracks_open_windows (es : List WinEvent) (h : wf es) :
    (runRegistry es).Nodup ∧
    ∀ w, w ∈ runRegistry es ↔
      (WinEvent.created w ∈ es ∧ WinEvent.closed w ∉ es) :=
  registry_invariant es h

theorem registry_tracks_open_windows_witness :
    wf [WinEvent.created 1, WinEvent.created 2, WinEvent.closed 1] ∧
    (runRegistry [WinEvent.created 1, WinEvent.created 2,
      WinEvent.closed 1]).Nodup :=
  ⟨by unfold wf wfAux; decide,
    (registry_tracks_open_windows
      [WinEvent.created 1, WinEvent.created 2, WinEvent.closed 1]
      (by unfold wf wfAux; decide)).1⟩

/-! ### C5 -/

theorem count_map_reload (l : List Nat) (w : Nat) :
    (l.map WindowAction.reloadIgnoringCache).count
      (WindowAction.reloadIgnoringCache w) = l.count w := by
  induction l with
  | nil => rfl
  | cons a t ih =>
    simp only [List.map_cons, List.count_cons, ih, beq_iff_eq,
      WindowAction.reloadIgnoringCache.injEq]

/-- C5: a soft-reset broadcast issues the reload-ignoring-cache call
exactly once to every window in the tracked collection at broadcast time
(created and not closed), and to no window that was closed before the
broadcast. -/
theorem soft_broadcast_exactly_once (es : List WinEvent) (h : wf es) :
    (∀ w, WinEvent.created w ∈ es → WinEvent.closed w ∉ es →
      (softResetHandler (runRegistry es)).count
        (WindowAction.reloadIgnoringCache w) = 1) ∧
    (∀ w, WinEvent.closed w ∈ es →
      WindowAction.reloadIgnoringCache w ∉ softResetHandler (runRegistry es)) := by
  obtain ⟨hnd, hmem⟩ := registry_invariant es h
  constructor
  · intro w hc hncl
    have hw : w ∈ runRegistry es := (hmem w).mpr ⟨hc, hncl⟩
    rw [softResetHandler, count_map_reload]
    exact List.count_eq_one_of_mem hnd hw
  · intro w hcl hin
    rw [softResetHandler, List.mem_map] at hin
    obtain ⟨x, hx, hxw⟩ := hin
    injection hxw with hxw
    subst hxw
    exact ((hmem x).mp hx).2 hcl

theorem soft_broadcast_exactly_once_witness :
    wf [WinEvent.created 1, WinEvent.created 2, WinEvent.closed 1] ∧
    WinEvent.created 2 ∈
      [WinEvent.created 1, WinEvent.created 2, WinEvent.closed 1] ∧
    WinEvent.closed 2 ∉
      [WinEvent.created 1, WinEvent.created 2, WinEvent.closed 1] ∧
    (softResetHandler (runRegistry
      [WinEvent.created 1, WinEvent.created 2, WinEvent.closed 1])).count
      (WindowAction.reloadIgnoringCache 2) = 1 :=
  ⟨by unfold wf wfAux; decide, by decide, by decide,
    (soft_broadcast_exactly_once
      [WinEvent.created 1, WinEvent.created 2, WinEvent.closed 1]
      (by unfold wf wfAux; decide)).1 2 (by decide) (by decide)⟩

end ElectronReload
